import Mathlib

/-!
Shallow embedding of the lexer in `src/listing/ch03.optimize_string/src/lex.rs`.

The Rust lexer owns a `Peekable<Bytes<R>>` byte source and a one-token
lookahead slot.  We model the byte source as a `List Nat` (the not yet
consumed bytes); `next_byte`/`peek_byte` return the byte 0 when the source
is exhausted, exactly as the Rust code maps `None` to `b'\0'`.  Panicking
paths (`panic!`, `todo!`) are modelled with `Except LexError`.  The `i64`
accumulators wrap modulo 2^64 (two's complement), made explicit by
`wrap64`; `f64` values are modelled by exact rationals `ℚ` (all claims only
involve values on which the floating-point operations performed by the code
are exact).
-/

/-- Decimal digit byte, `b'0'..=b'9'` / `char::to_digit(_, 10).is_some()`. -/
def isDigitByte (b : Nat) : Bool := 48 ≤ b && b ≤ 57

/-- `(b as char).is_alphabetic()` for a byte `b` (Latin-1 range of Unicode
`Alphabetic`): ASCII letters plus U+00AA, U+00B5, U+00BA, U+00C0–U+00D6,
U+00D8–U+00F6, U+00F8–U+00FF. -/
def isAlphabeticChar (b : Nat) : Bool :=
  (65 ≤ b && b ≤ 90) || (97 ≤ b && b ≤ 122) ||
  b == 170 || b == 181 || b == 186 ||
  (192 ≤ b && b ≤ 214) || (216 ≤ b && b ≤ 246) || (248 ≤ b && b ≤ 255)

/-- `(b as char).is_numeric()` for a byte `b` (Latin-1 range of Unicode
numeric characters): ASCII digits plus ² ³ ¹ ¼ ½ ¾. -/
def isNumericChar (b : Nat) : Bool :=
  (48 ≤ b && b ≤ 57) || b == 178 || b == 179 || b == 185 ||
  (188 ≤ b && b ≤ 190)

/-- `(b as char).is_alphanumeric()` for a byte `b`. -/
def isAlphanumericChar (b : Nat) : Bool := isAlphabeticChar b || isNumericChar b

/-- Two's-complement wrap-around of an integer into the `i64` range,
i.e. the value of the corresponding Rust `i64` arithmetic result. -/
def wrap64 (n : Int) : Int := (n + 2 ^ 63) % 2 ^ 64 - 2 ^ 63

/-- The byte list of an ASCII string literal. -/
def strBytes (s : String) : List Nat := s.data.map (fun c => c.toNat)

/-- `enum Token` from lex.rs.  `Integer` carries the `i64` value as an `Int`
(always in the `i64` range for tokens actually produced), `Float` carries the
`f64` value as an exact rational, `String` the raw payload bytes, `Name` the
identifier bytes. -/
inductive Token where
  | And | Break | Do | Else | Elseif | End
  | False | For | Function | Goto | If | In
  | Local | Nil | Not | Or | Repeat | Return
  | Then | True | Until | While
  | Add | Sub | Mul | Div | Mod | Pow | Len
  | BitAnd | BitXor | BitOr | ShiftL | ShiftR | Idiv
  | Equal | NotEq | LesEq | GreEq | Less | Greater | Assign
  | ParL | ParR | CurlyL | CurlyR | SqurL | SqurR | DoubColon
  | SemiColon | Colon | Comma | Dot | Concat | Dots
  | Integer (n : Int)
  | Float (q : ℚ)
  | String (s : List Nat)
  | Name (s : List Nat)
  | Eos

/-- The fatal stops of the lexer: `panic!` calls (invalid character,
unfinished string, malformed number) and `todo!` placeholders (escape
sequences, hexadecimal literals, exponent literals, long comments). -/
inductive LexError where
  | invalidChar (b : Nat)
  | unfinishedString
  | malformedNumber
  | escapeNotSupported
  | heximalNotSupported
  | expNotSupported
  | longCommentNotSupported
deriving DecidableEq, Repr

/-- The only token comparison the lexer performs is `self.ahead ==
Token::Eos` (in `next` and `peek`); this decides exactly that equality. -/
instance decEqTokenEos : (t : Token) → Decidable (t = Token.Eos)
  | .Eos => isTrue rfl
  | .And => isFalse (fun h => Token.noConfusion h)
  | .Break => isFalse (fun h => Token.noConfusion h)
  | .Do => isFalse (fun h => Token.noConfusion h)
  | .Else => isFalse (fun h => Token.noConfusion h)
  | .Elseif => isFalse (fun h => Token.noConfusion h)
  | .End => isFalse (fun h => Token.noConfusion h)
  | .False => isFalse (fun h => Token.noConfusion h)
  | .For => isFalse (fun h => Token.noConfusion h)
  | .Function => isFalse (fun h => Token.noConfusion h)
  | .Goto => isFalse (fun h => Token.noConfusion h)
  | .If => isFalse (fun h => Token.noConfusion h)
  | .In => isFalse (fun h => Token.noConfusion h)
  | .Local => isFalse (fun h => Token.noConfusion h)
  | .Nil => isFalse (fun h => Token.noConfusion h)
  | .Not => isFalse (fun h => Token.noConfusion h)
  | .Or => isFalse (fun h => Token.noConfusion h)
  | .Repeat => isFalse (fun h => Token.noConfusion h)
  | .Return => isFalse (fun h => Token.noConfusion h)
  | .Then => isFalse (fun h => Token.noConfusion h)
  | .True => isFalse (fun h => Token.noConfusion h)
  | .Until => isFalse (fun h => Token.noConfusion h)
  | .While => isFalse (fun h => Token.noConfusion h)
  | .Add => isFalse (fun h => Token.noConfusion h)
  | .Sub => isFalse (fun h => Token.noConfusion h)
  | .Mul => isFalse (fun h => Token.noConfusion h)
  | .Div => isFalse (fun h => Token.noConfusion h)
  | .Mod => isFalse (fun h => Token.noConfusion h)
  | .Pow => isFalse (fun h => Token.noConfusion h)
  | .Len => isFalse (fun h => Token.noConfusion h)
  | .BitAnd => isFalse (fun h => Token.noConfusion h)
  | .BitXor => isFalse (fun h => Token.noConfusion h)
  | .BitOr => isFalse (fun h => Token.noConfusion h)
  | .ShiftL => isFalse (fun h => Token.noConfusion h)
  | .ShiftR => isFalse (fun h => Token.noConfusion h)
  | .Idiv => isFalse (fun h => Token.noConfusion h)
  | .Equal => isFalse (fun h => Token.noConfusion h)
  | .NotEq => isFalse (fun h => Token.noConfusion h)
  | .LesEq => isFalse (fun h => Token.noConfusion h)
  | .GreEq => isFalse (fun h => Token.noConfusion h)
  | .Less => isFalse (fun h => Token.noConfusion h)
  | .Greater => isFalse (fun h => Token.noConfusion h)
  | .Assign => isFalse (fun h => Token.noConfusion h)
  | .ParL => isFalse (fun h => Token.noConfusion h)
  | .ParR => isFalse (fun h => Token.noConfusion h)
  | .CurlyL => isFalse (fun h => Token.noConfusion h)
  | .CurlyR => isFalse (fun h => Token.noConfusion h)
  | .SqurL => isFalse (fun h => Token.noConfusion h)
  | .SqurR => isFalse (fun h => Token.noConfusion h)
  | .DoubColon => isFalse (fun h => Token.noConfusion h)
  | .SemiColon => isFalse (fun h => Token.noConfusion h)
  | .Colon => isFalse (fun h => Token.noConfusion h)
  | .Comma => isFalse (fun h => Token.noConfusion h)
  | .Dot => isFalse (fun h => Token.noConfusion h)
  | .Concat => isFalse (fun h => Token.noConfusion h)
  | .Dots => isFalse (fun h => Token.noConfusion h)
  | .Integer _ => isFalse (fun h => Token.noConfusion h)
  | .Float _ => isFalse (fun h => Token.noConfusion h)
  | .String _ => isFalse (fun h => Token.noConfusion h)
  | .Name _ => isFalse (fun h => Token.noConfusion h)

/-- `Lex::peek_byte`: the next byte without consuming it, `0` at end of
input (Rust maps `None` to `b'\0'`). -/
def peek_byte (l : List Nat) : Nat := l.headD 0

/-- The inner loop of `Lex::read_comment` (line-comment case): consume bytes
until a `\n` or a `\0` (a genuine NUL byte, or the `b'\0'` that `next_byte`
yields at end of input) stops it. -/
def skip_line : List Nat → List Nat
  | [] => []
  | b :: rest => if b = 10 ∨ b = 0 then rest else skip_line rest

/-- `Lex::read_comment` (`--` already consumed): the first consumed byte
being `[` is the `todo!("long comment")` stop; any other first byte (also a
`\n` or NUL — the match consumes it without testing) starts a line comment
consumed by the loop. At end of input the first `next_byte` yields `b'\0'`,
which is not `[`, and the loop stops at once. -/
def read_comment : List Nat → Except LexError (List Nat)
  | [] => .ok []
  | b :: rest =>
    if b = 91 then .error .longCommentNotSupported else .ok (skip_line rest)

/-- `Lex::check_ahead`: peek one byte; on a match consume it and return the
long token, otherwise the short token. -/
def check_ahead (l : List Nat) (ahead : Nat) (long short : Token) :
    Token × List Nat :=
  if peek_byte l = ahead then (long, l.tail) else (short, l)

/-- `Lex::check_ahead2`: peek one byte; first matching alternative wins,
otherwise the short token with nothing consumed. -/
def check_ahead2 (l : List Nat) (ahead1 : Nat) (long1 : Token) (ahead2 : Nat)
    (long2 : Token) (short : Token) : Token × List Nat :=
  if peek_byte l = ahead1 then (long1, l.tail)
  else if peek_byte l = ahead2 then (long2, l.tail)
  else (short, l)

/-- The loop of `Lex::read_string` (opening quote already consumed, `s` the
bytes accumulated so far): `\n` or `\0` (a NUL byte or end of input) panics
"unfinished string", `\\` is the `todo!("escape")` stop, the quote byte
terminates, and any other byte is pushed onto the payload. -/
def read_string_loop (quote : Nat) (s : List Nat) :
    List Nat → Except LexError (Token × List Nat)
  | [] => .error .unfinishedString
  | b :: rest =>
    if b = 10 ∨ b = 0 then .error .unfinishedString
    else if b = 92 then .error .escapeNotSupported
    else if b = quote then .ok (.String s, rest)
    else read_string_loop quote (s ++ [b]) rest

/-- `Lex::read_string`: dispatch on the bytes after the opening quote. -/
def read_string (quote : Nat) (l : List Nat) :
    Except LexError (Token × List Nat) :=
  read_string_loop quote [] l

/-- The loop of `Lex::read_number_fraction`: accumulate digits into the
`i64` accumulator `n` (wrapping) while scaling the divisor `x` by 10 per
digit; any non-digit stops the loop and the token is
`Float(i as f64 + n as f64 / x)`. -/
def fraction_loop (i n : Int) (x : ℚ) : List Nat → Token × List Nat
  | [] => (.Float ((i : ℚ) + (n : ℚ) / x), [])
  | b :: rest =>
    if isDigitByte b then
      fraction_loop i (wrap64 (wrap64 (n * 10) + ((b : Int) - 48))) (x * 10) rest
    else (.Float ((i : ℚ) + (n : ℚ) / x), b :: rest)

/-- `Lex::read_number_fraction`: first does `next_byte()` (the `// skip '.'`
line — it unconditionally consumes one byte, whatever it is), then runs the
digit loop with accumulator 0 and divisor 1.0. -/
def read_number_fraction (i : Int) (l : List Nat) : Token × List Nat :=
  fraction_loop i 0 1 l.tail

/-- `Lex::read_heximal`: `next_byte()` to skip the `x`, then
`todo!("lex heximal")` — always a fatal stop. -/
def read_heximal (_l : List Nat) : Except LexError (Token × List Nat) :=
  .error .heximalNotSupported

/-- `Lex::read_number_exp`: `next_byte()` to skip the `e`, then
`todo!("lex number exp")` — always a fatal stop (the `f64` argument is
unused in the source as well). -/
def read_number_exp (_f : ℚ) (_l : List Nat) :
    Except LexError (Token × List Nat) :=
  .error .expNotSupported

/-- The decimal loop of `Lex::read_number` plus the following-byte check:
digits accumulate into `n` with wrapping `i64` arithmetic (`n * 10 + d`); a
peeked `.` delegates to `read_number_fraction` (the `.` not yet consumed);
a peeked `e`/`E` delegates to `read_number_exp`; otherwise the loop breaks
and the peeked following byte must be neither alphabetic nor `.`, else
`panic!("malformat number")`.  The empty list is the end of input:
`peek_byte` yields `b'\0'`, which breaks the loop and passes the check. -/
def read_number_loop (n : Int) : List Nat → Except LexError (Token × List Nat)
  | [] => .ok (.Integer n, [])
  | b :: rest =>
    if isDigitByte b then
      read_number_loop (wrap64 (wrap64 (n * 10) + ((b : Int) - 48))) rest
    else if b = 46 then .ok (read_number_fraction n (b :: rest))
    else if b = 101 ∨ b = 69 then read_number_exp (n : ℚ) (b :: rest)
    else if isAlphabeticChar b = true ∨ b = 46 then .error .malformedNumber
    else .ok (.Integer n, b :: rest)

/-- `Lex::read_number` (`first` already consumed): a leading `0` whose
following byte is `x`/`X` dispatches to `read_heximal`; otherwise the
decimal loop starts from `(first - b'0') as i64`. -/
def read_number (first : Nat) (l : List Nat) :
    Except LexError (Token × List Nat) :=
  if first = 48 ∧ (peek_byte l = 120 ∨ peek_byte l = 88) then read_heximal l
  else read_number_loop ((first : Int) - 48) l

/-- The 21 reserved keyword spellings, as byte lists, in the order of the
match in `Lex::read_name`. -/
def keywords : List (List Nat) :=
  [strBytes "and", strBytes "break", strBytes "do", strBytes "else",
   strBytes "elseif", strBytes "end", strBytes "false", strBytes "for",
   strBytes "function", strBytes "goto", strBytes "if", strBytes "in",
   strBytes "local", strBytes "nil", strBytes "not", strBytes "or",
   strBytes "repeat", strBytes "return", strBytes "then", strBytes "true",
   strBytes "until", strBytes "while"]

/-- The keyword match at the end of `Lex::read_name`: the accumulated text
is compared against each reserved spelling; a miss yields `Name`. -/
def keyword_token (s : List Nat) : Token :=
  if s = strBytes "and" then .And
  else if s = strBytes "break" then .Break
  else if s = strBytes "do" then .Do
  else if s = strBytes "else" then .Else
  else if s = strBytes "elseif" then .Elseif
  else if s = strBytes "end" then .End
  else if s = strBytes "false" then .False
  else if s = strBytes "for" then .For
  else if s = strBytes "function" then .Function
  else if s = strBytes "goto" then .Goto
  else if s = strBytes "if" then .If
  else if s = strBytes "in" then .In
  else if s = strBytes "local" then .Local
  else if s = strBytes "nil" then .Nil
  else if s = strBytes "not" then .Not
  else if s = strBytes "or" then .Or
  else if s = strBytes "repeat" then .Repeat
  else if s = strBytes "return" then .Return
  else if s = strBytes "then" then .Then
  else if s = strBytes "true" then .True
  else if s = strBytes "until" then .Until
  else if s = strBytes "while" then .While
  else .Name s

/-- The accumulation loop of `Lex::read_name`: consume bytes while
`(b as char).is_alphanumeric() || b == '_'`. -/
def read_name_loop (s : List Nat) : List Nat → List Nat × List Nat
  | [] => (s, [])
  | b :: rest =>
    if isAlphanumericChar b = true ∨ b = 95 then read_name_loop (s ++ [b]) rest
    else (s, b :: rest)

/-- `Lex::read_name` (`first` already consumed and known to be a letter or
`_` at the call site): accumulate, then match against the keyword table. -/
def read_name (first : Nat) (l : List Nat) : Token × List Nat :=
  let r := read_name_loop [first] l
  (keyword_token r.1, r.2)

/-- `Lex::do_next` on the remaining input: consume one byte and dispatch.
The order of the tests mirrors the (pairwise disjoint) arms of the Rust
`match`.  Whitespace and `--` line comments recurse; the recursion is
well-founded because the input strictly shrinks.  An exhausted input makes
`next_byte` yield `b'\0'`, hence `Eos` — the same arm a genuine NUL byte
hits, with the bytes after it left in place. -/
def do_next : List Nat → Except LexError (Token × List Nat)
  | [] => .ok (.Eos, [])
  | b :: l =>
    if b = 10 ∨ b = 13 ∨ b = 9 ∨ b = 32 then do_next l
    else if b = 43 then .ok (.Add, l)
    else if b = 42 then .ok (.Mul, l)
    else if b = 37 then .ok (.Mod, l)
    else if b = 94 then .ok (.Pow, l)
    else if b = 35 then .ok (.Len, l)
    else if b = 38 then .ok (.BitAnd, l)
    else if b = 124 then .ok (.BitOr, l)
    else if b = 40 then .ok (.ParL, l)
    else if b = 41 then .ok (.ParR, l)
    else if b = 123 then .ok (.CurlyL, l)
    else if b = 125 then .ok (.CurlyR, l)
    else if b = 91 then .ok (.SqurL, l)
    else if b = 93 then .ok (.SqurR, l)
    else if b = 59 then .ok (.SemiColon, l)
    else if b = 44 then .ok (.Comma, l)
    else if b = 47 then .ok (check_ahead l 47 .Idiv .Div)
    else if b = 61 then .ok (check_ahead l 61 .Equal .Assign)
    else if b = 126 then .ok (check_ahead l 61 .NotEq .BitXor)
    else if b = 58 then .ok (check_ahead l 58 .DoubColon .Colon)
    else if b = 60 then .ok (check_ahead2 l 61 .LesEq 60 .ShiftL .Less)
    else if b = 62 then .ok (check_ahead2 l 61 .GreEq 62 .ShiftR .Greater)
    else if b = 39 ∨ b = 34 then read_string b l
    else if b = 46 then
      if peek_byte l = 46 then
        if peek_byte l.tail = 46 then .ok (.Dots, l.tail.tail)
        else .ok (.Concat, l.tail)
      else if isDigitByte (peek_byte l) then .ok (read_number_fraction 0 l)
      else .ok (.Dot, l)
    else if b = 45 then
      if peek_byte l = 45 then
        match h : read_comment l.tail with
        | .error e => .error e
        | .ok l2 => do_next l2
      else .ok (.Sub, l)
    else if isDigitByte b then read_number b l
    else if (65 ≤ b ∧ b ≤ 90) ∨ (97 ≤ b ∧ b ≤ 122) ∨ b = 95 then
      .ok (read_name b l)
    else if b = 0 then .ok (.Eos, l)
    else .error (.invalidChar b)
termination_by l => l.length
decreasing_by
  · simp
  · have hs : ∀ m : List Nat, (skip_line m).length ≤ m.length := by
      intro m
      induction m with
      | nil => simp [skip_line]
      | cons c r ih =>
        simp only [skip_line]
        split
        · simp
        · exact Nat.le_succ_of_le ih
    have h1 : ∀ m l2 : List Nat, read_comment m = .ok l2 →
        l2.length ≤ m.length := by
      intro m l2 hm
      cases m with
      | nil => simp [read_comment] at hm; simp [← hm]
      | cons c r =>
        simp only [read_comment] at hm
        split at hm
        · cases hm
        · cases hm
          exact Nat.le_succ_of_le (hs r)
    have h2 := h1 _ _ h
    simp only [List.length_tail, List.length_cons] at h2 ⊢
    omega

/-- `struct Lex`: the not yet consumed input bytes and the one-token
lookahead slot (`ahead`), initialized to `Eos`.  (Named `Lexer` here only
because Mathlib already uses the name `Lex`.) -/
structure Lexer where
  input : List Nat
  ahead : Token

/-- `Lex::new`. -/
def Lexer.new (input : List Nat) : Lexer := ⟨input, .Eos⟩

/-- `Lex::next`: if no lookahead is buffered (`ahead == Eos`), scan;
otherwise `mem::replace(&mut self.ahead, Token::Eos)`. -/
def Lexer.next (st : Lexer) : Except LexError (Token × Lexer) :=
  if st.ahead = .Eos then
    match do_next st.input with
    | .error e => .error e
    | .ok (t, l) => .ok (t, ⟨l, .Eos⟩)
  else .ok (st.ahead, ⟨st.input, .Eos⟩)

/-- `Lex::peek`: if no lookahead is buffered (`ahead == Eos`), scan one
token into the buffer; return (a reference to) the buffered token. -/
def Lexer.peek (st : Lexer) : Except LexError (Token × Lexer) :=
  if st.ahead = .Eos then
    match do_next st.input with
    | .error e => .error e
    | .ok (t, l) => .ok (t, ⟨l, t⟩)
  else .ok (st.ahead, st)

/-- `k` successive `Lex::next` calls, collecting the returned tokens. -/
def consumeN : Nat → Lexer → Except LexError (List Token × Lexer)
  | 0, st => .ok ([], st)
  | k + 1, st =>
    match st.next with
    | .error e => .error e
    | .ok (t, st2) =>
      match consumeN k st2 with
      | .error e => .error e
      | .ok (ts, st3) => .ok (t :: ts, st3)

/-- The mathematical (unwrapped) value of a decimal digit string. -/
def decValue (ds : List Nat) : Int :=
  ds.foldl (fun (a : Int) (b : Nat) => a * 10 + ((b : Int) - 48)) 0

/-- The accumulator of the decimal loop after consuming the digits `ds`
starting from `n`: each step is the wrapping `i64` computation
`n * 10 + d`. -/
def foldWrap (n : Int) (ds : List Nat) : Int :=
  ds.foldl (fun (a : Int) (b : Nat) => wrap64 (wrap64 (a * 10) + ((b : Int) - 48))) n


/-! ## Helper lemmas -/

theorem wrap64_small {n : Int} (h1 : -(2 ^ 63) ≤ n) (h2 : n < 2 ^ 63) :
    wrap64 n = n := by
  unfold wrap64
  omega

theorem wrap64_step (n d : Int) :
    wrap64 (wrap64 (wrap64 n * 10) + d) = wrap64 (n * 10 + d) := by
  unfold wrap64
  omega

/-- Running the wrapping accumulator from a wrapped seed agrees with
wrapping the exact mathematical accumulation once at the end. -/
theorem foldWrap_wrap (ds : List Nat) : ∀ n : Int,
    foldWrap (wrap64 n) ds =
      wrap64 (ds.foldl (fun (a : Int) (b : Nat) => a * 10 + ((b : Int) - 48)) n) := by
  induction ds with
  | nil => intro n; simp [foldWrap]
  | cons b ds ih =>
    intro n
    simp only [foldWrap, List.foldl_cons] at ih ⊢
    rw [wrap64_step]
    exact ih (n * 10 + ((b : Int) - 48))

/-- Consuming a digit prefix in the decimal loop just accumulates it. -/
theorem read_number_loop_append (ds : List Nat) :
    ∀ (n : Int) (l : List Nat), (∀ b ∈ ds, isDigitByte b = true) →
    read_number_loop n (ds ++ l) = read_number_loop (foldWrap n ds) l := by
  induction ds with
  | nil => intro n l _; simp [foldWrap]
  | cons b ds ih =>
    intro n l h
    have hb : isDigitByte b = true := h b (by simp)
    simp only [List.cons_append, read_number_loop, hb, if_true, foldWrap,
      List.foldl_cons]
    exact ih _ l (fun c hc => h c (by simp [hc]))

/-- Dispatch: a digit byte starts numeric scanning. -/
theorem do_next_digit {b : Nat} (l : List Nat) (h : isDigitByte b = true) :
    do_next (b :: l) = read_number b l := by
  have hb : 48 ≤ b ∧ b ≤ 57 := by
    simpa [isDigitByte, decide_eq_true_eq] using h
  rw [do_next]
  simp only [isDigitByte, decide_eq_true_eq, Bool.and_eq_true] at *
  repeat rw [if_neg (by omega)]
  rw [if_pos (by omega)]

/-- Dispatch: an ASCII letter or `_` starts identifier scanning. -/
theorem do_next_letter {b : Nat} (l : List Nat)
    (h : (65 ≤ b ∧ b ≤ 90) ∨ (97 ≤ b ∧ b ≤ 122) ∨ b = 95) :
    do_next (b :: l) = .ok (read_name b l) := by
  rw [do_next]
  simp only [isDigitByte, decide_eq_true_eq, Bool.and_eq_true]
  repeat rw [if_neg (by omega)]
  rw [if_pos (by omega)]

/-- Dispatch: a quote byte starts string scanning. -/
theorem do_next_quote {b : Nat} (l : List Nat) (h : b = 39 ∨ b = 34) :
    do_next (b :: l) = read_string b l := by
  rcases h with h | h <;> subst h <;> simp +decide [do_next]

/-- A successful `read_string_loop` always yields a `String` token. -/
theorem read_string_loop_shape :
    ∀ (l : List Nat) (quote : Nat) (s : List Nat) (t : Token) (rest : List Nat),
    read_string_loop quote s l = .ok (t, rest) → ∃ p, t = .String p := by
  intro l
  induction l with
  | nil => intro quote s t rest h; simp [read_string_loop] at h
  | cons b l ih =>
    intro quote s t rest h
    simp only [read_string_loop] at h
    split at h
    · cases h
    · split at h
      · cases h
      · split at h
        · cases h
          exact ⟨s, rfl⟩
        · exact ih quote (s ++ [b]) t rest h

/-- `fraction_loop` always yields a `Float` token. -/
theorem fraction_loop_shape :
    ∀ (l : List Nat) (i n : Int) (x : ℚ),
    ∃ q, (fraction_loop i n x l).1 = .Float q := by
  intro l
  induction l with
  | nil => intro i n x; exact ⟨_, rfl⟩
  | cons b l ih =>
    intro i n x
    simp only [fraction_loop]
    split
    · exact ih i _ _
    · exact ⟨_, rfl⟩

/-- A successful decimal scan yields an `Integer` or a `Float` token. -/
theorem read_number_loop_shape :
    ∀ (l : List Nat) (n : Int) (t : Token) (rest : List Nat),
    read_number_loop n l = .ok (t, rest) →
    (∃ m, t = .Integer m) ∨ (∃ q, t = .Float q) := by
  intro l
  induction l with
  | nil => intro n t rest h; cases h; exact .inl ⟨n, rfl⟩
  | cons b l ih =>
    intro n t rest h
    simp only [read_number_loop] at h
    split at h
    · exact ih _ t rest h
    · split at h
      · right
        simp only [read_number_fraction, List.tail_cons] at h
        injection h with h2
        obtain ⟨q, hq⟩ := fraction_loop_shape l n 0 1
        rw [h2] at hq
        exact ⟨q, hq⟩
      · split at h
        · cases h
        · split at h
          · cases h
          · cases h
            exact .inl ⟨n, rfl⟩

/-- A successful `read_number` yields an `Integer` or a `Float` token. -/
theorem read_number_shape {first : Nat} {l : List Nat} {t : Token}
    {rest : List Nat} (h : read_number first l = .ok (t, rest)) :
    (∃ m, t = .Integer m) ∨ (∃ q, t = .Float q) := by
  unfold read_number at h
  split at h
  · cases h
  · exact read_number_loop_shape l _ t rest h

set_option maxHeartbeats 3200000 in
/-- When the keyword match falls through to `Name`, the payload is the
accumulated text and it is none of the reserved spellings. -/
theorem keyword_token_name {s t : List Nat} (h : keyword_token s = .Name t) :
    t = s ∧ ¬ s ∈ keywords := by
  unfold keyword_token at h
  by_cases h1 : s = strBytes "and"
  · rw [if_pos h1] at h
    exact absurd h (by simp)
  rw [if_neg h1] at h
  by_cases h2 : s = strBytes "break"
  · rw [if_pos h2] at h
    exact absurd h (by simp)
  rw [if_neg h2] at h
  by_cases h3 : s = strBytes "do"
  · rw [if_pos h3] at h
    exact absurd h (by simp)
  rw [if_neg h3] at h
  by_cases h4 : s = strBytes "else"
  · rw [if_pos h4] at h
    exact absurd h (by simp)
  rw [if_neg h4] at h
  by_cases h5 : s = strBytes "elseif"
  · rw [if_pos h5] at h
    exact absurd h (by simp)
  rw [if_neg h5] at h
  by_cases h6 : s = strBytes "end"
  · rw [if_pos h6] at h
    exact absurd h (by simp)
  rw [if_neg h6] at h
  by_cases h7 : s = strBytes "false"
  · rw [if_pos h7] at h
    exact absurd h (by simp)
  rw [if_neg h7] at h
  by_cases h8 : s = strBytes "for"
  · rw [if_pos h8] at h
    exact absurd h (by simp)
  rw [if_neg h8] at h
  by_cases h9 : s = strBytes "function"
  · rw [if_pos h9] at h
    exact absurd h (by simp)
  rw [if_neg h9] at h
  by_cases h10 : s = strBytes "goto"
  · rw [if_pos h10] at h
    exact absurd h (by simp)
  rw [if_neg h10] at h
  by_cases h11 : s = strBytes "if"
  · rw [if_pos h11] at h
    exact absurd h (by simp)
  rw [if_neg h11] at h
  by_cases h12 : s = strBytes "in"
  · rw [if_pos h12] at h
    exact absurd h (by simp)
  rw [if_neg h12] at h
  by_cases h13 : s = strBytes "local"
  · rw [if_pos h13] at h
    exact absurd h (by simp)
  rw [if_neg h13] at h
  by_cases h14 : s = strBytes "nil"
  · rw [if_pos h14] at h
    exact absurd h (by simp)
  rw [if_neg h14] at h
  by_cases h15 : s = strBytes "not"
  · rw [if_pos h15] at h
    exact absurd h (by simp)
  rw [if_neg h15] at h
  by_cases h16 : s = strBytes "or"
  · rw [if_pos h16] at h
    exact absurd h (by simp)
  rw [if_neg h16] at h
  by_cases h17 : s = strBytes "repeat"
  · rw [if_pos h17] at h
    exact absurd h (by simp)
  rw [if_neg h17] at h
  by_cases h18 : s = strBytes "return"
  · rw [if_pos h18] at h
    exact absurd h (by simp)
  rw [if_neg h18] at h
  by_cases h19 : s = strBytes "then"
  · rw [if_pos h19] at h
    exact absurd h (by simp)
  rw [if_neg h19] at h
  by_cases h20 : s = strBytes "true"
  · rw [if_pos h20] at h
    exact absurd h (by simp)
  rw [if_neg h20] at h
  by_cases h21 : s = strBytes "until"
  · rw [if_pos h21] at h
    exact absurd h (by simp)
  rw [if_neg h21] at h
  by_cases h22 : s = strBytes "while"
  · rw [if_pos h22] at h
    exact absurd h (by simp)
  rw [if_neg h22] at h
  injection h with h0
  refine ⟨h0.symm, ?_⟩
  intro hmem
  simp only [keywords, List.mem_cons, List.not_mem_nil, or_false] at hmem
  tauto

theorem skip_line_length (l : List Nat) : (skip_line l).length ≤ l.length := by
  induction l with
  | nil => simp [skip_line]
  | cons b rest ih =>
    simp only [skip_line]
    split
    · simp
    · exact Nat.le_succ_of_le ih

theorem read_comment_length {l l2 : List Nat} (h : read_comment l = .ok l2) :
    l2.length ≤ l.length := by
  cases l with
  | nil => simp [read_comment] at h; simp [← h]
  | cons b rest =>
    simp only [read_comment] at h
    split at h
    · cases h
    · cases h
      exact Nat.le_succ_of_le (skip_line_length rest)

/-- Every `Name` token `do_next` produces differs from all 21 reserved
keyword spellings: identifiers are routed through the keyword match before
being emitted. -/
theorem do_next_never_keyword :
    ∀ (fuel : Nat) (l : List Nat) (t : Token) (rest s : List Nat),
    l.length ≤ fuel → do_next l = .ok (t, rest) → t = .Name s →
    ¬ s ∈ keywords := by
  intro fuel
  induction fuel with
  | zero =>
    intro l t rest s hlen h ht
    have hl : l = [] := by
      cases l with
      | nil => rfl
      | cons b l2 => simp at hlen
    subst hl
    rw [do_next] at h
    simp only [Except.ok.injEq, Prod.mk.injEq] at h
    rw [← h.1] at ht
    exact absurd ht (by simp)
  | succ fuel ih =>
    intro l t rest s hlen h ht
    cases l with
    | nil =>
      rw [do_next] at h
      simp only [Except.ok.injEq, Prod.mk.injEq] at h
      rw [← h.1] at ht
      exact absurd ht (by simp)
    | cons b l2 =>
      have hlen2 : l2.length ≤ fuel := by simp at hlen; omega
      rw [do_next] at h
      by_cases c1 : b = 10 ∨ b = 13 ∨ b = 9 ∨ b = 32
      · rw [if_pos c1] at h
        exact ih l2 t rest s hlen2 h ht
      rw [if_neg c1] at h
      by_cases c2 : b = 43
      · rw [if_pos c2] at h
        simp only [Except.ok.injEq, Prod.mk.injEq] at h
        rw [← h.1] at ht
        exact absurd ht (by simp)
      rw [if_neg c2] at h
      by_cases c3 : b = 42
      · rw [if_pos c3] at h
        simp only [Except.ok.injEq, Prod.mk.injEq] at h
        rw [← h.1] at ht
        exact absurd ht (by simp)
      rw [if_neg c3] at h
      by_cases c4 : b = 37
      · rw [if_pos c4] at h
        simp only [Except.ok.injEq, Prod.mk.injEq] at h
        rw [← h.1] at ht
        exact absurd ht (by simp)
      rw [if_neg c4] at h
      by_cases c5 : b = 94
      · rw [if_pos c5] at h
        simp only [Except.ok.injEq, Prod.mk.injEq] at h
        rw [← h.1] at ht
        exact absurd ht (by simp)
      rw [if_neg c5] at h
      by_cases c6 : b = 35
      · rw [if_pos c6] at h
        simp only [Except.ok.injEq, Prod.mk.injEq] at h
        rw [← h.1] at ht
        exact absurd ht (by simp)
      rw [if_neg c6] at h
      by_cases c7 : b = 38
      · rw [if_pos c7] at h
        simp only [Except.ok.injEq, Prod.mk.injEq] at h
        rw [← h.1] at ht
        exact absurd ht (by simp)
      rw [if_neg c7] at h
      by_cases c8 : b = 124
      · rw [if_pos c8] at h
        simp only [Except.ok.injEq, Prod.mk.injEq] at h
        rw [← h.1] at ht
        exact absurd ht (by simp)
      rw [if_neg c8] at h
      by_cases c9 : b = 40
      · rw [if_pos c9] at h
        simp only [Except.ok.injEq, Prod.mk.injEq] at h
        rw [← h.1] at ht
        exact absurd ht (by simp)
      rw [if_neg c9] at h
      by_cases c10 : b = 41
      · rw [if_pos c10] at h
        simp only [Except.ok.injEq, Prod.mk.injEq] at h
        rw [← h.1] at ht
        exact absurd ht (by simp)
      rw [if_neg c10] at h
      by_cases c11 : b = 123
      · rw [if_pos c11] at h
        simp only [Except.ok.injEq, Prod.mk.injEq] at h
        rw [← h.1] at ht
        exact absurd ht (by simp)
      rw [if_neg c11] at h
      by_cases c12 : b = 125
      · rw [if_pos c12] at h
        simp only [Except.ok.injEq, Prod.mk.injEq] at h
        rw [← h.1] at ht
        exact absurd ht (by simp)
      rw [if_neg c12] at h
      by_cases c13 : b = 91
      · rw [if_pos c13] at h
        simp only [Except.ok.injEq, Prod.mk.injEq] at h
        rw [← h.1] at ht
        exact absurd ht (by simp)
      rw [if_neg c13] at h
      by_cases c14 : b = 93
      · rw [if_pos c14] at h
        simp only [Except.ok.injEq, Prod.mk.injEq] at h
        rw [← h.1] at ht
        exact absurd ht (by simp)
      rw [if_neg c14] at h
      by_cases c15 : b = 59
      · rw [if_pos c15] at h
        simp only [Except.ok.injEq, Prod.mk.injEq] at h
        rw [← h.1] at ht
        exact absurd ht (by simp)
      rw [if_neg c15] at h
      by_cases c16 : b = 44
      · rw [if_pos c16] at h
        simp only [Except.ok.injEq, Prod.mk.injEq] at h
        rw [← h.1] at ht
        exact absurd ht (by simp)
      rw [if_neg c16] at h
      by_cases c17 : b = 47
      · rw [if_pos c17] at h
        unfold check_ahead at h
        split at h <;>
          (simp only [Except.ok.injEq, Prod.mk.injEq] at h;
            rw [← h.1] at ht; exact absurd ht (by simp))
      rw [if_neg c17] at h
      by_cases c18 : b = 61
      · rw [if_pos c18] at h
        unfold check_ahead at h
        split at h <;>
          (simp only [Except.ok.injEq, Prod.mk.injEq] at h;
            rw [← h.1] at ht; exact absurd ht (by simp))
      rw [if_neg c18] at h
      by_cases c19 : b = 126
      · rw [if_pos c19] at h
        unfold check_ahead at h
        split at h <;>
          (simp only [Except.ok.injEq, Prod.mk.injEq] at h;
            rw [← h.1] at ht; exact absurd ht (by simp))
      rw [if_neg c19] at h
      by_cases c20 : b = 58
      · rw [if_pos c20] at h
        unfold check_ahead at h
        split at h <;>
          (simp only [Except.ok.injEq, Prod.mk.injEq] at h;
            rw [← h.1] at ht; exact absurd ht (by simp))
      rw [if_neg c20] at h
      by_cases c21 : b = 60
      · rw [if_pos c21] at h
        simp only [Except.ok.injEq] at h
        unfold check_ahead2 at h
        split at h
        all_goals try split at h
        all_goals
          (simp only [Prod.mk.injEq] at h; rw [← h.1] at ht;
            exact absurd ht (by simp))
      rw [if_neg c21] at h
      by_cases c22 : b = 62
      · rw [if_pos c22] at h
        simp only [Except.ok.injEq] at h
        unfold check_ahead2 at h
        split at h
        all_goals try split at h
        all_goals
          (simp only [Prod.mk.injEq] at h; rw [← h.1] at ht;
            exact absurd ht (by simp))
      rw [if_neg c22] at h
      by_cases c23 : b = 39 ∨ b = 34
      · rw [if_pos c23] at h
        unfold read_string at h
        obtain ⟨p, hp⟩ := read_string_loop_shape l2 b [] t rest h
        rw [hp] at ht
        exact absurd ht (by simp)
      rw [if_neg c23] at h
      by_cases c24 : b = 46
      · rw [if_pos c24] at h
        by_cases d1 : peek_byte l2 = 46
        · rw [if_pos d1] at h
          by_cases d2 : peek_byte l2.tail = 46
          · rw [if_pos d2] at h
            simp only [Except.ok.injEq, Prod.mk.injEq] at h
            rw [← h.1] at ht
            exact absurd ht (by simp)
          · rw [if_neg d2] at h
            simp only [Except.ok.injEq, Prod.mk.injEq] at h
            rw [← h.1] at ht
            exact absurd ht (by simp)
        · rw [if_neg d1] at h
          by_cases d3 : isDigitByte (peek_byte l2) = true
          · rw [if_pos d3] at h
            simp only [Except.ok.injEq] at h
            obtain ⟨q, hq⟩ := fraction_loop_shape l2.tail 0 0 1
            rw [show read_number_fraction 0 l2 = fraction_loop 0 0 1 l2.tail
              from rfl] at h
            rw [h] at hq
            simp at hq
            rw [hq] at ht
            exact absurd ht (by simp)
          · rw [if_neg d3] at h
            simp only [Except.ok.injEq, Prod.mk.injEq] at h
            rw [← h.1] at ht
            exact absurd ht (by simp)
      rw [if_neg c24] at h
      by_cases c25 : b = 45
      · rw [if_pos c25] at h
        by_cases d4 : peek_byte l2 = 45
        · rw [if_pos d4] at h
          split at h
          · exact Except.noConfusion h
          next l3 heq =>
            have h6 := read_comment_length heq
            have h7 : l2.tail.length ≤ l2.length := by cases l2 <;> simp
            exact ih l3 t rest s (by omega) h ht
        · rw [if_neg d4] at h
          simp only [Except.ok.injEq, Prod.mk.injEq] at h
          rw [← h.1] at ht
          exact absurd ht (by simp)
      rw [if_neg c25] at h
      by_cases c26 : isDigitByte b = true
      · rw [if_pos c26] at h
        rcases read_number_shape h with ⟨m, hm⟩ | ⟨q, hq⟩
        · rw [hm] at ht
          exact absurd ht (by simp)
        · rw [hq] at ht
          exact absurd ht (by simp)
      rw [if_neg c26] at h
      by_cases c27 : (65 ≤ b ∧ b ≤ 90) ∨ (97 ≤ b ∧ b ≤ 122) ∨ b = 95
      · rw [if_pos c27] at h
        simp only [read_name, Except.ok.injEq, Prod.mk.injEq] at h
        obtain ⟨hts, hnk⟩ := keyword_token_name (h.1.trans ht)
        rw [hts]
        exact hnk
      rw [if_neg c27] at h
      by_cases c28 : b = 0
      · rw [if_pos c28] at h
        simp only [Except.ok.injEq, Prod.mk.injEq] at h
        rw [← h.1] at ht
        exact absurd ht (by simp)
      rw [if_neg c28] at h
      exact Except.noConfusion h

/-! ## Claim theorems -/

/-- Claim C3: once the true end of the input byte source has been reached
(input exhausted, no pending lookahead), every subsequent consume call
returns the `Eos` sentinel, for any number of calls, and never fails. -/
theorem eos_stable_after_end :
    ∀ k : Nat,
    consumeN k ⟨[], .Eos⟩ = .ok (List.replicate k .Eos, ⟨[], .Eos⟩) := by
  intro k
  induction k with
  | zero => rfl
  | succ k ih =>
    have h1 : Lexer.next ⟨[], .Eos⟩ = .ok (.Eos, ⟨[], .Eos⟩) := by
      simp [Lexer.next, do_next]
    simp [consumeN, h1, ih, List.replicate_succ]

/-- Claim C10: a NUL byte in the middle of the input is consumed and
yields the `Eos` sentinel, but is not terminal: for NUL followed by
`"123"`, the first consume returns `Eos` and the second returns
`Integer 123`. -/
theorem nul_byte_not_terminal :
    (∀ rest : List Nat,
      Lexer.next ⟨0 :: rest, .Eos⟩ = .ok (.Eos, ⟨rest, .Eos⟩)) ∧
    consumeN 2 ⟨0 :: strBytes "123", .Eos⟩ =
      .ok ([.Eos, .Integer 123], ⟨[], .Eos⟩) := by
  constructor
  · intro rest
    simp +decide [Lexer.next, do_next]
  · simp +decide [consumeN, Lexer.next, do_next, strBytes, read_number,
      read_number_loop, peek_byte, isDigitByte, wrap64, isAlphabeticChar]

/-- Claim C5 (the code diverges at `".5"`): `"123"` yields `Integer 123`
and `"12.5"` yields `Float 12.5`, but `".5"` yields `Float 0` — the
`next_byte()` in `read_number_fraction` that is meant to skip the `.`
consumes the digit `5` instead, because the `.` was already consumed by
the dispatch in `do_next`. -/
theorem number_scan_values :
    Lexer.next ⟨strBytes "123", .Eos⟩ = .ok (.Integer 123, ⟨[], .Eos⟩) ∧
    Lexer.next ⟨strBytes "12.5", .Eos⟩ = .ok (.Float (25 / 2), ⟨[], .Eos⟩) ∧
    Lexer.next ⟨strBytes ".5", .Eos⟩ = .ok (.Float 0, ⟨[], .Eos⟩) ∧
    Token.Float 0 ≠ Token.Float (1 / 2) := by
  refine ⟨?_, ?_, ?_, by norm_num⟩ <;>
    (simp +decide [Lexer.next, do_next, strBytes, read_number,
      read_number_loop, read_number_fraction, fraction_loop, peek_byte,
      isDigitByte, wrap64, isAlphabeticChar]) <;>
    norm_num

/-- Claim C8 counterexample: an `e` encountered while scanning the
fractional part of a number does NOT fail — `"1.5e3"` scans successfully
to `Float 1.5`, leaving `"e3"` unconsumed (the fraction loop never checks
for `e`/`E`). -/
theorem frac_exp_not_fatal :
    Lexer.next ⟨strBytes "1.5e3", .Eos⟩ =
      .ok (.Float (3 / 2), ⟨[101, 51], .Eos⟩) ∧
    (∀ e : LexError, Lexer.next ⟨strBytes "1.5e3", .Eos⟩ ≠ .error e) := by
  have h : Lexer.next ⟨strBytes "1.5e3", .Eos⟩ =
      .ok (.Float (3 / 2), ⟨[101, 51], .Eos⟩) := by
    simp +decide [Lexer.next, do_next, strBytes, read_number,
      read_number_loop, read_number_fraction, fraction_loop, peek_byte,
      isDigitByte, wrap64, isAlphabeticChar]
    norm_num
  exact ⟨h, fun e he => by rw [h] at he; cases he⟩

/-- Claim C8 as amended: a backslash inside a string literal, a `0`
followed by `x`/`X`, an `e`/`E` encountered while scanning the integer
part of a decimal number, and a `[` right after `--` each fail fatally
with the corresponding explicit not-supported stop. -/
theorem unsupported_constructs_fatal :
    (∀ (q : Nat) (s rest : List Nat),
      read_string_loop q s (92 :: rest) = .error .escapeNotSupported) ∧
    (∀ rest : List Nat,
      read_number 48 (120 :: rest) = .error .heximalNotSupported) ∧
    (∀ rest : List Nat,
      read_number 48 (88 :: rest) = .error .heximalNotSupported) ∧
    (∀ (n : Int) (rest : List Nat),
      read_number_loop n (101 :: rest) = .error .expNotSupported) ∧
    (∀ (n : Int) (rest : List Nat),
      read_number_loop n (69 :: rest) = .error .expNotSupported) ∧
    (∀ rest : List Nat,
      read_comment (91 :: rest) = .error .longCommentNotSupported) := by
  refine ⟨?_, ?_, ?_, ?_, ?_, ?_⟩ <;> intros <;>
    simp +decide [read_string_loop, read_number, read_number_loop,
      read_comment, read_heximal, read_number_exp, peek_byte, isDigitByte,
      isAlphabeticChar]

/-- Claim C1 counterexample: from the state whose input is a NUL byte
followed by `"1"`, two peeks with no consume in between return different
tokens (`Eos`, then `Integer 1`) — the second peek scans again because
the buffered `Eos` is indistinguishable from "no lookahead". -/
theorem peek_twice_differs_after_nul :
    Lexer.peek ⟨[0, 49], .Eos⟩ = .ok (.Eos, ⟨[49], .Eos⟩) ∧
    Lexer.peek ⟨[49], .Eos⟩ = .ok (.Integer 1, ⟨[], .Integer 1⟩) ∧
    Token.Eos ≠ Token.Integer 1 := by
  refine ⟨?_, ?_, by simp⟩ <;>
    simp +decide [Lexer.peek, do_next, read_number, read_number_loop,
      peek_byte, isDigitByte, wrap64, isAlphabeticChar]

/-- Claim C1 as amended: whenever a peek returns a token other than the
`Eos` sentinel, an immediately following peek with no intervening consume
returns an equal token and leaves the lexer state unchanged — in
particular no second scan of the input occurs. -/
theorem peek_idempotent_of_ne_eos :
    ∀ (st : Lexer) (t : Token) (st2 : Lexer),
    Lexer.peek st = .ok (t, st2) → t ≠ .Eos →
    Lexer.peek st2 = .ok (t, st2) := by
  intro st t st2 h ht
  unfold Lexer.peek at h
  split at h
  · split at h
    · exact Except.noConfusion h
    · simp only [Except.ok.injEq, Prod.mk.injEq] at h
      obtain ⟨h1, h2⟩ := h
      subst h1
      subst h2
      simp [Lexer.peek, ht]
  · simp only [Except.ok.injEq, Prod.mk.injEq] at h
    obtain ⟨h1, h2⟩ := h
    subst h2
    simp [Lexer.peek, h1, ht]

/-- Witness for the amended C1 at a concrete state: peeking `"+"` yields
`Add`, and a second peek returns the same token and state. -/
theorem peek_idempotent_witness :
    Lexer.peek ⟨[43], .Eos⟩ = .ok (.Add, ⟨[], .Add⟩) ∧
    Lexer.peek ⟨[], .Add⟩ = .ok (.Add, ⟨[], .Add⟩) := by
  have h1 : Lexer.peek ⟨[43], .Eos⟩ = .ok (.Add, ⟨[], .Add⟩) := by
    simp +decide [Lexer.peek, do_next]
  exact ⟨h1,
    peek_idempotent_of_ne_eos ⟨[43], .Eos⟩ .Add ⟨[], .Add⟩ h1 (by decide)⟩

/-- Claim C2 counterexample: from the state whose input is a NUL byte
followed by `"1"`, a peek returns `Eos` but the immediately following
consume re-scans and returns `Integer 1`, a different token. -/
theorem next_after_peek_differs_after_nul :
    Lexer.peek ⟨[0, 49], .Eos⟩ = .ok (.Eos, ⟨[49], .Eos⟩) ∧
    Lexer.next ⟨[49], .Eos⟩ = .ok (.Integer 1, ⟨[], .Eos⟩) ∧
    Token.Integer 1 ≠ Token.Eos := by
  refine ⟨?_, ?_, by decide⟩ <;>
    simp +decide [Lexer.peek, Lexer.next, do_next, read_number,
      read_number_loop, peek_byte, isDigitByte, wrap64, isAlphabeticChar]

/-- Claim C2 as amended: whenever a peek returns a token other than the
`Eos` sentinel, the immediately following consume returns an equal token,
clears the lookahead buffer back to the `Eos` sentinel, and does not scan
the input again (the byte cursor is unchanged). -/
theorem next_after_peek_of_ne_eos :
    ∀ (st : Lexer) (t : Token) (st2 : Lexer),
    Lexer.peek st = .ok (t, st2) → t ≠ .Eos →
    Lexer.next st2 = .ok (t, ⟨st2.input, .Eos⟩) := by
  intro st t st2 h ht
  unfold Lexer.peek at h
  split at h
  · split at h
    · exact Except.noConfusion h
    · simp only [Except.ok.injEq, Prod.mk.injEq] at h
      obtain ⟨h1, h2⟩ := h
      subst h1
      subst h2
      simp [Lexer.next, ht]
  · simp only [Except.ok.injEq, Prod.mk.injEq] at h
    obtain ⟨h1, h2⟩ := h
    subst h2
    simp [Lexer.next, h1, ht]

/-- Witness for the amended C2 at a concrete state: peeking `"+"` yields
`Add`, and the following consume returns the same token with the buffer
cleared. -/
theorem next_after_peek_witness :
    Lexer.peek ⟨[43], .Eos⟩ = .ok (.Add, ⟨[], .Add⟩) ∧
    Lexer.next ⟨[], .Add⟩ = .ok (.Add, ⟨[], .Eos⟩) := by
  have h1 : Lexer.peek ⟨[43], .Eos⟩ = .ok (.Add, ⟨[], .Add⟩) := by
    simp +decide [Lexer.peek, do_next]
  exact ⟨h1,
    next_after_peek_of_ne_eos ⟨[43], .Eos⟩ .Add ⟨[], .Add⟩ h1 (by decide)⟩

/-- Claim C4 counterexample to the keyword count: the reserved keyword
table of `Lex::read_name` has 22 spellings (`and` … `while`), not 21. -/
theorem keyword_count_not_21 :
    keywords.length = 22 ∧ keywords.length ≠ 21 := by
  refine ⟨rfl, by decide⟩

/-- Claim C4 as amended: every `Name` token the scanner emits differs
from all 22 reserved keyword spellings; `"while"` lexes to the `While`
keyword token and `"while1"` to `Name "while1"` (exact, case-sensitive,
full-token keyword match). -/
theorem name_token_never_keyword :
    (∀ (l : List Nat) (t : Token) (rest s : List Nat),
      do_next l = .ok (t, rest) → t = .Name s → ¬ s ∈ keywords) ∧
    keywords.length = 22 ∧
    Lexer.next ⟨strBytes "while", .Eos⟩ = .ok (.While, ⟨[], .Eos⟩) ∧
    Lexer.next ⟨strBytes "while1", .Eos⟩ =
      .ok (.Name (strBytes "while1"), ⟨[], .Eos⟩) := by
  refine ⟨fun l t rest s hl hn =>
    do_next_never_keyword l.length l t rest s le_rfl hl hn, by decide, ?_, ?_⟩
  · simp +decide [Lexer.next, do_next, strBytes, read_name, read_name_loop,
      keyword_token, isAlphanumericChar, isAlphabeticChar, isNumericChar,
      peek_byte]
  · simp +decide [Lexer.next, do_next, strBytes, read_name, read_name_loop,
      keyword_token, isAlphanumericChar, isAlphabeticChar, isNumericChar,
      peek_byte]

/-- Witness for C4's universally quantified part at a concrete scan: the
`Name` token produced from input `"x"` has a payload that is not a
reserved keyword spelling. -/
theorem name_token_never_keyword_witness :
    do_next (strBytes "x") = .ok (.Name (strBytes "x"), []) ∧
    ¬ strBytes "x" ∈ keywords := by
  have h2 : do_next (strBytes "x") = .ok (.Name (strBytes "x"), []) := by
    simp +decide [do_next, strBytes, read_name, read_name_loop,
      keyword_token, isAlphanumericChar, isAlphabeticChar, isNumericChar]
  exact ⟨h2, name_token_never_keyword.1 (strBytes "x") (.Name (strBytes "x"))
    [] (strBytes "x") h2 rfl⟩

/-- If the string-scanning loop encounters a newline or the end of the
input before the closing quote (and before any backslash), it fails with
the unfinished-string error. -/
theorem read_string_loop_unfinished :
    ∀ (pre : List Nat) (q : Nat) (s post : List Nat),
    (∀ b ∈ pre, b ≠ q ∧ b ≠ 92 ∧ b ≠ 10 ∧ b ≠ 0) →
    (post = [] ∨ (∃ rest, post = 10 :: rest) ∨ (∃ rest, post = 0 :: rest)) →
    read_string_loop q s (pre ++ post) = .error .unfinishedString := by
  intro pre
  induction pre with
  | nil =>
    intro q s post _ hpost
    rcases hpost with h | ⟨rest, h⟩ | ⟨rest, h⟩ <;> subst h <;>
      simp [read_string_loop]
  | cons b pre ih =>
    intro q s post hpre hpost
    obtain ⟨hq, h92, h10, h0⟩ := hpre b (by simp)
    simp only [List.cons_append, read_string_loop]
    rw [if_neg (by tauto), if_neg h92, if_neg hq]
    exact ih q (s ++ [b]) post (fun c hc => hpre c (by simp [hc])) hpost

/-- Claim C6: scanning `"'abc'"` yields a `String` token whose payload is
exactly the bytes of `"abc"` (both quotes consumed, excluded from the
payload); and whenever the scan of a string literal reaches a newline or
the end of the input before the closing quote, it fails fatally with the
unfinished-string error. -/
theorem string_scan_ok_and_unfinished :
    do_next (strBytes "'abc'") = .ok (.String (strBytes "abc"), []) ∧
    (∀ (q : Nat) (pre post : List Nat),
      (q = 39 ∨ q = 34) →
      (∀ b ∈ pre, b ≠ q ∧ b ≠ 92 ∧ b ≠ 10 ∧ b ≠ 0) →
      (post = [] ∨ (∃ rest, post = 10 :: rest) ∨ (∃ rest, post = 0 :: rest)) →
      do_next (q :: (pre ++ post)) = .error .unfinishedString) := by
  constructor
  · simp +decide [do_next, strBytes, read_string, read_string_loop]
  · intro q pre post hq hpre hpost
    rw [do_next_quote _ hq]
    unfold read_string
    exact read_string_loop_unfinished pre q [] post hpre hpost

/-- Witness for C6's universally quantified part: input `"'abc"` (opening
quote, three content bytes, then end of input) is a fatal
unfinished-string condition. -/
theorem string_unfinished_witness :
    do_next (strBytes "'abc") = .error .unfinishedString := by
  have h := string_scan_ok_and_unfinished.2 39 [97, 98, 99] []
    (by decide) (by decide) (Or.inl rfl)
  have hs : strBytes "'abc" = 39 :: ([97, 98, 99] ++ []) := by decide
  rw [hs]
  exact h

/-- Claim C7: a decimal integer literal (no fractional or exponent part,
and not the hexadecimal `0x`/`0X` form) immediately followed by an
alphabetic byte other than `e`/`E` is a fatal malformed-number error — it
is never emitted as a truncated `Integer` token.  (A following `.` or
`e`/`E` instead continues the literal as a fraction or exponent, so the
"no fractional or exponent part" proviso makes those followers
inapplicable.) -/
theorem integer_trailing_alpha_malformed :
    ∀ (d : Nat) (ds : List Nat) (c : Nat) (rest : List Nat),
    isDigitByte d = true → (∀ b ∈ ds, isDigitByte b = true) →
    isAlphabeticChar c = true → c ≠ 101 → c ≠ 69 →
    (d = 48 ∧ ds = [] → c ≠ 120 ∧ c ≠ 88) →
    Lexer.next ⟨d :: (ds ++ c :: rest), .Eos⟩ = .error .malformedNumber := by
  intro d ds c rest hd hds hc h101 h69 hx
  have hcb : ¬ (48 ≤ c ∧ c ≤ 57) ∧ c ≠ 46 := by
    simp only [isAlphabeticChar, Bool.or_eq_true, Bool.and_eq_true,
      decide_eq_true_eq, beq_iff_eq] at hc
    omega
  have hdo : do_next (d :: (ds ++ c :: rest)) = .error .malformedNumber := by
    rw [do_next_digit _ hd]
    have hpeek : ¬ (d = 48 ∧ (peek_byte (ds ++ c :: rest) = 120 ∨
        peek_byte (ds ++ c :: rest) = 88)) := by
      cases ds with
      | nil =>
        simp only [List.nil_append, peek_byte, List.headD_cons]
        rintro ⟨hd48, hcc⟩
        rcases hx ⟨hd48, rfl⟩ with ⟨hx1, hx2⟩
        tauto
      | cons e ds2 =>
        have he := hds e (by simp)
        simp only [isDigitByte, Bool.and_eq_true, decide_eq_true_eq] at he
        simp only [List.cons_append, peek_byte, List.headD_cons]
        omega
    unfold read_number
    rw [if_neg hpeek]
    rw [read_number_loop_append ds _ _ hds]
    rw [read_number_loop]
    have hcd : ¬ isDigitByte c = true := by
      simp only [isDigitByte, Bool.and_eq_true, decide_eq_true_eq]
      omega
    rw [if_neg hcd, if_neg hcb.2, if_neg (by tauto),
      if_pos (Or.inl hc)]
  simp [Lexer.next, hdo]

/-- Witness for C7: input `"1abc"` is a fatal malformed-number error. -/
theorem integer_trailing_alpha_malformed_witness :
    Lexer.next ⟨strBytes "1abc", .Eos⟩ = .error .malformedNumber := by
  have h := integer_trailing_alpha_malformed 49 [] 97 [98, 99] (by decide)
    (by decide) (by decide) (by decide) (by decide) (by decide)
  have hs : strBytes "1abc" = 49 :: ([] ++ 97 :: [98, 99]) := by decide
  rw [hs]
  exact h

/-- Claim C9: decimal accumulation performs no overflow checking — for
every digit sequence the emitted `Integer` token carries the two's
complement wrap (modulo 2^64) of the mathematical value of the digits, so
values exceeding the `i64` range silently wrap. -/
theorem integer_accumulator_wraps :
    ∀ (d : Nat) (ds : List Nat),
    isDigitByte d = true → (∀ b ∈ ds, isDigitByte b = true) →
    Lexer.next ⟨d :: ds, .Eos⟩ =
      .ok (.Integer (wrap64 (decValue (d :: ds))), ⟨[], .Eos⟩) := by
  intro d ds hd hds
  have hdo : do_next (d :: ds) =
      .ok (.Integer (wrap64 (decValue (d :: ds))), []) := by
    rw [do_next_digit _ hd]
    have hpeek : ¬ (d = 48 ∧ (peek_byte ds = 120 ∨ peek_byte ds = 88)) := by
      cases ds with
      | nil => simp [peek_byte]
      | cons e ds2 =>
        have he := hds e (by simp)
        simp only [isDigitByte, Bool.and_eq_true, decide_eq_true_eq] at he
        simp only [peek_byte, List.headD_cons]
        omega
    unfold read_number
    rw [if_neg hpeek]
    have happ := read_number_loop_append ds ((d : Int) - 48) [] hds
    simp only [List.append_nil] at happ
    rw [happ]
    have hval : foldWrap ((d : Int) - 48) ds = wrap64 (decValue (d :: ds)) := by
      have hsmall : wrap64 ((d : Int) - 48) = (d : Int) - 48 := by
        simp only [isDigitByte, Bool.and_eq_true, decide_eq_true_eq] at hd
        apply wrap64_small <;> omega
      rw [← hsmall, foldWrap_wrap]
      simp [decValue]
    rw [show read_number_loop (foldWrap ((d : Int) - 48) ds) [] =
      .ok (.Integer (foldWrap ((d : Int) - 48) ds), []) from rfl, hval]
  simp [Lexer.next, hdo]

/-- Witness for C9: the 19-digit input `"9223372036854775808"` (2^63, one
past the largest `i64`) lexes to the wrapped value `-9223372036854775808`. -/
theorem integer_accumulator_wraps_witness :
    isDigitByte 57 = true ∧
    Lexer.next ⟨strBytes "9223372036854775808", .Eos⟩ =
      .ok (.Integer (-9223372036854775808), ⟨[], .Eos⟩) := by
  refine ⟨by decide, ?_⟩
  have h := integer_accumulator_wraps 57
    [50, 50, 51, 51, 55, 50, 48, 51, 54, 56, 53, 52, 55, 55, 53, 56, 48, 56]
    (by decide) (by decide)
  have hs : strBytes "9223372036854775808" = 57 ::
      [50, 50, 51, 51, 55, 50, 48, 51, 54, 56, 53, 52, 55, 55, 53, 56, 48, 56] := by
    decide
  rw [hs, h]
  rw [(by decide : wrap64 (decValue (57 :: [50, 50, 51, 51, 55, 50, 48, 51,
    54, 56, 53, 52, 55, 55, 53, 56, 48, 56])) = -9223372036854775808)]
